import Mathlib

/-!
Verification of the clipboard-history core of the `ortu` repository
(`src-tauri/src/db.rs`, `src-tauri/src/clipboard.rs`).

The SQLite-backed store is shallowly embedded: each table is a Lean list,
row ids are `Int`, `created_at` timestamps are `Int` seconds (SQLite stores
text timestamps whose lexicographic order coincides with chronological
order), and each Rust method of `ClipboardDB` becomes a pure function on
the `DB` state.  The JSON (de)serialization layer of backup/restore is
treated as the identity on the `BackupData` structure, and transactions
that roll back on early return are modelled by returning the unchanged
input state.  Statement-level SQL behaviour (UNIQUE constraints,
`INSERT OR IGNORE`, `ON DELETE CASCADE` under `foreign_keys = ON`,
`LIKE` with ASCII case folding) is modelled explicitly.
-/

namespace Ortu

/-! ### String helpers (UTF-8 byte length, whitespace, SQLite LIKE) -/

/-- Number of UTF-8 bytes of one character, as Rust `str::len` counts them. -/
def charBytes (c : Char) : Nat :=
  if c.val < 0x80 then 1
  else if c.val < 0x800 then 2
  else if c.val < 0x10000 then 3
  else 4

/-- UTF-8 byte length of a character list. -/
def listBytes : List Char → Nat
  | [] => 0
  | c :: cs => charBytes c + listBytes cs

/-- UTF-8 byte length of a string; models Rust `String::len`. -/
def utf8Len (s : String) : Nat := listBytes s.data

/-- Models Rust `text.trim().is_empty()`: true iff every char is whitespace. -/
def allWhitespace (s : String) : Bool := s.data.all Char.isWhitespace

/-- ASCII lower-casing, as SQLite's default `LIKE` applies to A–Z. -/
def asciiLower (c : Char) : Char :=
  if 'A' ≤ c ∧ c ≤ 'Z' then Char.ofNat (c.toNat + 32) else c

/-- SQLite `LIKE` matching on char lists: `%` matches any run, `_` any one
char, other chars compare ASCII-case-insensitively.  Structural recursion
on a fuel that bounds the total pattern+text length, so the kernel can
evaluate it; every recursive call shrinks pattern+text by at least one, so
the initial fuel in `likeMatch` is never exhausted. -/
def likeMatchFuel : Nat → List Char → List Char → Bool
  | 0, _, _ => false
  | fuel + 1, ps, cs =>
    match ps, cs with
    | [], [] => true
    | '%' :: ps', [] => likeMatchFuel fuel ps' []
    | _ :: _, [] => false
    | [], _ :: _ => false
    | '%' :: ps', c :: cs' =>
      likeMatchFuel fuel ps' (c :: cs') || likeMatchFuel fuel ('%' :: ps') cs'
    | '_' :: ps', _ :: cs' => likeMatchFuel fuel ps' cs'
    | p :: ps', c :: cs' => (asciiLower p == asciiLower c) && likeMatchFuel fuel ps' cs'

def likeMatch (ps cs : List Char) : Bool :=
  likeMatchFuel (ps.length + cs.length + 1) ps cs

/-- `raw_content LIKE '%term%'`. -/
def likeSub (term : String) (content : String) : Bool :=
  likeMatch ('%' :: term.data ++ ['%']) content.data

/-- `raw_content LIKE 'term%'` (prefix pattern of `find_similar_category`). -/
def likeStarts (term : String) (content : String) : Bool :=
  likeMatch (term.data ++ ['%']) content.data

/-- Rust `str::replace(pat, "")`: delete every non-overlapping occurrence of
`pat`, scanning left to right.  Structural recursion on a fuel bounded by
the text length (each call consumes at least one char, so the initial fuel
in `removeAll` is never exhausted). -/
def removeAllFuel (pat : List Char) : Nat → List Char → List Char
  | 0, cs => cs
  | _ + 1, [] => []
  | fuel + 1, c :: cs =>
    if pat ≠ [] && pat.isPrefixOf (c :: cs) then
      removeAllFuel pat fuel ((c :: cs).drop pat.length)
    else
      c :: removeAllFuel pat fuel cs

def removeAll (pat cs : List Char) : List Char := removeAllFuel pat cs.length cs

/-- Rust `str::starts_with` on the underlying chars. -/
def strStarts (s p : String) : Bool := p.data.isPrefixOf s.data

/-- First whitespace-delimited token, as Rust `split_whitespace().next()`
(`""` when there is none). -/
def firstToken (s : String) : String :=
  String.mk ((s.data.dropWhile Char.isWhitespace).takeWhile (fun c => !c.isWhitespace))

/-! ### Data model (`db.rs` tables and serde structs) -/

/-- One row of the `history` table. -/
structure HistoryRow where
  id : Int
  content_type : String
  raw_content : String
  category : Option String
  is_permanent : Bool
  created_at : Int
deriving DecidableEq

/-- One row of the `groups` table. -/
structure Group where
  id : Int
  name : String
  is_system : Bool
deriving DecidableEq

/-- The serde `ClipboardItem` struct: a history row together with its
group-name list. -/
structure ClipboardItem where
  id : Int
  content_type : String
  raw_content : String
  category : Option String
  groups : List String
  is_permanent : Bool
  created_at : Int
deriving DecidableEq

/-- The serde `BackupData` struct. -/
structure BackupData where
  history : List ClipboardItem
  groups : List Group
  exported_at : Int
deriving DecidableEq

/-- The persistent store: the three SQLite tables, each in rowid order. -/
structure DB where
  groups : List Group
  history : List HistoryRow
  item_groups : List (Int × Int)
deriving DecidableEq

/-- Result of a store operation that can fail: success flag plus the state
the database is left in (transactions roll back; bare statements commit). -/
structure OpResult where
  ok : Bool
  db : DB
deriving DecidableEq

/-- SQLite rowid assignment for `INTEGER PRIMARY KEY`: one more than the
largest existing id (1 on an empty table). -/
def nextIdOf (ids : List Int) : Int := (ids.foldl max 0) + 1

def nextHistId (d : DB) : Int := nextIdOf (d.history.map (·.id))

def nextGroupId (d : DB) : Int := nextIdOf (d.groups.map (·.id))

/-! ### Store operations (`impl ClipboardDB` in `db.rs`) -/

/-- `insert_item`: append a history row with `content_type = "text"`,
`is_permanent` defaulting to 0 and `created_at = CURRENT_TIMESTAMP`;
returns `last_insert_rowid`. -/
def insert_item (d : DB) (now : Int) (content : String) (category : Option String) :
    Int × DB :=
  let nid := nextHistId d
  (nid, { d with history := d.history ++
            [⟨nid, "text", content, category, false, now⟩] })

/-- `delete_item`: `DELETE FROM history WHERE id = ?`; deleting a row
cascades its membership edges (`ON DELETE CASCADE`). -/
def delete_item (d : DB) (id : Int) : DB :=
  { d with
    history := d.history.filter (fun r => !(r.id == id)),
    item_groups := d.item_groups.filter
      (fun e => !(d.history.any (fun r => r.id == e.1 && r.id == id))) }

/-- `toggle_permanent`: flip `is_permanent` on the matching row (no row
matched means no change and still success). -/
def toggle_permanent (d : DB) (id : Int) : DB :=
  let flip : HistoryRow → HistoryRow :=
    fun r => if r.id == id then { r with is_permanent := !r.is_permanent } else r
  { d with history := d.history.map flip }

/-- Retention window used by `prune_expired` (`datetime('now','-24 hours')`),
in seconds. -/
def retentionSecs : Int := 24 * 60 * 60

/-- `prune_expired`: delete unpinned rows older than 24 hours; cascade
removes the deleted rows' membership edges. -/
def prune_expired (d : DB) (now : Int) : DB :=
  let keep : HistoryRow → Bool :=
    fun r => !(r.is_permanent == false && r.created_at < now - retentionSecs)
  { d with
    history := d.history.filter keep,
    item_groups := d.item_groups.filter
      (fun e => !(d.history.any (fun r => r.id == e.1 && !(keep r)))) }

/-- `clear_ephemeral_on_start`: delete every unpinned row; cascade removes
the deleted rows' membership edges. -/
def clear_ephemeral_on_start (d : DB) : DB :=
  { d with
    history := d.history.filter (fun r => r.is_permanent),
    item_groups := d.item_groups.filter
      (fun e => !(d.history.any (fun r => r.id == e.1 && !r.is_permanent))) }

/-- `INSERT OR IGNORE INTO groups (name, is_system)`: insert with a fresh id
unless a group of that name exists. -/
def insertOrIgnoreGroup (d : DB) (name : String) (is_system : Bool) : DB :=
  if d.groups.any (fun g => g.name == name) then d
  else { d with groups := d.groups ++ [⟨nextGroupId d, name, is_system⟩] }

/-- `add_to_group`: inside a transaction, fail with `QueryReturnedNoRows`
when the item is absent (the dropped transaction rolls back, leaving the
store unchanged); otherwise ensure the group exists and
`INSERT OR IGNORE` the membership edge. -/
def add_to_group (d : DB) (item_id : Int) (group_name : String) : OpResult :=
  if !(d.history.any (fun r => r.id == item_id)) then ⟨false, d⟩
  else
    let d1 := insertOrIgnoreGroup d group_name false
    match d1.groups.find? (fun g => g.name == group_name) with
    | none => ⟨false, d⟩
    | some g =>
      ⟨true,
        if d1.item_groups.contains (item_id, g.id) then d1
        else { d1 with item_groups := d1.item_groups ++ [(item_id, g.id)] }⟩

/-- `remove_from_group`: look the group up by name; when found, delete the
matching membership edge; a missing group or edge is a silent no-op. -/
def remove_from_group (d : DB) (item_id : Int) (group_name : String) : OpResult :=
  match d.groups.find? (fun g => g.name == group_name) with
  | none => ⟨true, d⟩
  | some g =>
    let keep : Int × Int → Bool := fun e => !(e.1 == item_id && e.2 == g.id)
    ⟨true, { d with item_groups := d.item_groups.filter keep }⟩

/-- `set_category`: update the legacy `category` column (own statement, own
lock), then call `add_to_group`; when the latter fails, the column update
has already been committed. -/
def catUpd (id : Int) (category : String) (r : HistoryRow) : HistoryRow :=
  if r.id == id then { r with category := some category } else r

def set_category (d : DB) (id : Int) (category : String) : OpResult :=
  let d1 := { d with history := d.history.map (catUpd id category) }
  match add_to_group d1 id category with
  | ⟨true, d2⟩ => ⟨true, d2⟩
  | ⟨false, _⟩ => ⟨false, d1⟩

/-- `rename_group`: two bare `UPDATE` statements (no transaction).  The
history update always succeeds; the group rename hits the UNIQUE(name)
constraint exactly when a group named `old_name` exists and a *different*
group already carries `new_name`, and then the history update stays
committed. -/
def renameCat (old_name new_name : String) (r : HistoryRow) : HistoryRow :=
  if r.category == some old_name then { r with category := some new_name } else r

def renameGrp (old_name new_name : String) (g : Group) : Group :=
  if g.name == old_name then { g with name := new_name } else g

def rename_group (d : DB) (old_name new_name : String) : OpResult :=
  let d1 := { d with history := d.history.map (renameCat old_name new_name) }
  if d1.groups.any (fun g => g.name == old_name) && new_name != old_name
      && d1.groups.any (fun g => g.name == new_name) then
    ⟨false, d1⟩
  else
    ⟨true, { d1 with groups := d1.groups.map (renameGrp old_name new_name) }⟩

/-- `find_similar_category`: no lookup for content under 5 bytes or with no
first token; otherwise the category of the first row whose category is
non-null and whose content `LIKE`-matches `firstWord%`. -/
def find_similar_category (d : DB) (content : String) : Option String :=
  if utf8Len content < 5 then none
  else
    let first_word := firstToken content
    if first_word == "" then none
    else
      match d.history.find?
          (fun r => r.category.isSome && likeStarts first_word r.raw_content) with
      | some r => r.category
      | none => none

/-! ### Classifier (`clipboard.rs` regex cascade)

Each Rust regex has the form `(?m)^…`, i.e. it is anchored at the start of
the text or right after a `'\n'`.  `\s` is a whitespace char (which
includes `'\n'`), `\b` a word boundary, `\w` a word char. -/

def isWordChar (c : Char) : Bool := c.isAlphanum || c == '_'

/-- Match `w` literally, then hand the rest of the chars to `after`. -/
def litThen (w : List Char) (after : List Char → Bool) : List Char → Bool
  | cs =>
    match w, cs with
    | [], rest => after rest
    | _ :: _, [] => false
    | p :: ps, c :: cs' => p == c && litThen ps after cs'

/-- `\s` right after the literal. -/
def afterWs : List Char → Bool
  | c :: _ => c.isWhitespace
  | [] => false

/-- `\b` right after the literal. -/
def afterBoundary : List Char → Bool
  | c :: _ => !isWordChar c
  | [] => true

/-- `\w+` right after the literal. -/
def afterWordChars : List Char → Bool
  | c :: _ => isWordChar c
  | [] => false

/-- Apply `test` at the start of the text and right after every `'\n'`,
modelling a `(?m)^` anchor. -/
def anyLineStartAux (test : List Char → Bool) : List Char → Bool
  | [] => false
  | c :: cs => (c == '\n' && test cs) || anyLineStartAux test cs

def anyLineStart (test : List Char → Bool) (cs : List Char) : Bool :=
  test cs || anyLineStartAux test cs

/-- `(?m)^word\s`. -/
def reWordWs (word : String) (s : String) : Bool :=
  anyLineStart (litThen word.data afterWs) s.data

/-- `(?m)^word\b`. -/
def reWordBoundary (word : String) (s : String) : Bool :=
  anyLineStart (litThen word.data afterBoundary) s.data

/-- `(?m)^word\w+`. -/
def reWordWordChars (word : String) (s : String) : Bool :=
  anyLineStart (litThen word.data afterWordChars) s.data

/-- `(?m)^go\s(mod|get|build|run)\b`. -/
def goModRe (s : String) : Bool :=
  anyLineStart
    (litThen ['g', 'o'] (fun rest =>
      match rest with
      | c :: rest' =>
        c.isWhitespace &&
          (litThen "mod".data afterBoundary rest' ||
           litThen "get".data afterBoundary rest' ||
           litThen "build".data afterBoundary rest' ||
           litThen "run".data afterBoundary rest')
      | [] => false))
    s.data

/-- `(?m)^\s*(uses:|runs-on:|steps:)`. -/
def ghActionsRe (s : String) : Bool :=
  anyLineStart
    (fun cs =>
      let cs' := cs.dropWhile Char.isWhitespace
      litThen "uses:".data (fun _ => true) cs' ||
      litThen "runs-on:".data (fun _ => true) cs' ||
      litThen "steps:".data (fun _ => true) cs')
    s.data

/-- The ordered rule cascade of `start_listener` in `clipboard.rs`: the
first matching family wins. -/
def classify (text : String) : Option String :=
  if reWordWs "docker" text || reWordWs "docker-compose" text then
    some "Docker"
  else if reWordWs "kubectl" text || reWordWs "helm" text then
    some "Kubernetes"
  else if reWordWs "terraform" text || reWordWs "ansible" text
      || reWordWs "ansible-playbook" text then
    some "IaC"
  else if reWordWs "aws" text || reWordWs "gcloud" text || reWordWs "az" text then
    some "Cloud CLI"
  else if reWordWs "git" text || reWordWs "gh" text || reWordWs "svn" text then
    some "Version Control"
  else if reWordWs "npm" text || reWordWs "npx" text || reWordWs "yarn" text
      || reWordWs "pnpm" text || reWordWs "pip" text || reWordWs "pip3" text
      || reWordWs "poetry" text || reWordWs "cargo" text || goModRe text
      || reWordWs "brew" text || reWordWs "apt" text || reWordWs "apt-get" text
      || reWordWs "yum" text || reWordWs "dnf" text then
    some "Package Management"
  else if reWordWs "node" text || reWordWs "python" text || reWordWs "python3" text
      || reWordWs "java" text || reWordWs "mvn" text || reWordWs "gradle" text
      || reWordWs "dotnet" text || reWordWs "rustc" text then
    some "Runtime / Build"
  else if reWordBoundary "cd" text || reWordBoundary "ls" text
      || reWordBoundary "pwd" text || reWordBoundary "cp" text
      || reWordBoundary "mv" text || reWordBoundary "rm" text
      || reWordBoundary "cat" text || reWordBoundary "less" text
      || reWordBoundary "grep" text || reWordBoundary "find" text
      || reWordBoundary "chmod" text || reWordBoundary "chown" text
      || reWordWs "zsh" text || reWordWordChars "Get-" text
      || reWordWordChars "Set-" text || reWordWordChars "New-" text
      || reWordWordChars "Remove-" text then
    some "Shell / OS"
  else if reWordWs "curl" text || reWordWs "wget" text || reWordWs "http" text
      || reWordWs "ping" text || reWordWs "netstat" text || reWordWs "ss" text
      || reWordWs "lsof" text then
    some "Networking"
  else if reWordWs "psql" text || reWordWs "mysql" text || reWordWs "redis-cli" text
      || reWordWs "mongo" text || reWordWs "sqlite3" text then
    some "Database"
  else if reWordWs "make" text || reWordWs "cmake" text || reWordWs "bazel" text
      || ghActionsRe text then
    some "CI / Build"
  else
    none

/-- The category the capture loop stores: regex cascade first, then the
similarity fallback against the store. -/
def captureCategory (d : DB) (text : String) : Option String :=
  match classify text with
  | some c => some c
  | none => find_similar_category d text

/-! ### Capture loop (`start_listener` body of one poll tick) -/

/-- In-process state of the capture loop: the `last_content` dedup memory
and the store. -/
structure CaptureState where
  last_content : String
  db : DB
deriving DecidableEq

/-- The 50 MiB ceiling (`50 * 1024 * 1024` bytes). -/
def sizeLimit : Nat := 50 * 1024 * 1024

/-- One tick of the capture loop on clipboard text `text`: skip when the
text equals the last-seen value or trims to empty; otherwise drop (but
remember) oversized text, else classify and insert. -/
def captureTick (st : CaptureState) (now : Int) (text : String) : CaptureState :=
  if !(text == st.last_content) && !(allWhitespace text) then
    if utf8Len text > sizeLimit then
      { st with last_content := text }
    else
      let category := captureCategory st.db text
      { last_content := text, db := (insert_item st.db now text category).2 }
  else st

/-! ### Backup and restore (`get_all_data_json`, `restore_from_json`)

The JSON encode/decode pair is treated as the identity on `BackupData`. -/

/-- The join underlying `viewGroups`, parametrised by the group table and
edge list. -/
def viewGroupsOn (gs : List Group) (edges : List (Int × Int)) (iid : Int) : List String :=
  edges.filterMap (fun e =>
    if e.1 == iid then (gs.find? (fun g => g.id == e.2)).map (fun g => g.name) else none)

/-- Group names attached to item `iid`, read off the membership table in
row order through the `groups` join (a dangling edge joins to nothing). -/
def viewGroups (d : DB) (iid : Int) : List String :=
  viewGroupsOn d.groups d.item_groups iid

/-- A history row together with its populated group list, as both
`get_history` and `get_all_data_json` return it. -/
def toClipboardItem (d : DB) (r : HistoryRow) : ClipboardItem :=
  ⟨r.id, r.content_type, r.raw_content, r.category, viewGroups d r.id,
    r.is_permanent, r.created_at⟩

/-- `get_all_data_json`: select the items (all of them when no group list
is given or the list is empty, else the members of the named groups),
populate their group lists, and serialize them with the matching `groups`
rows. -/
def get_all_data (d : DB) (selected_groups : Option (List String)) (exportedAt : Int) :
    BackupData :=
  let rows :=
    match selected_groups with
    | none => d.history
    | some gs =>
      if gs.isEmpty then d.history
      else d.history.filter (fun r => d.item_groups.any (fun e =>
        e.1 == r.id && d.groups.any (fun g => g.id == e.2 && gs.contains g.name)))
  let grps :=
    match selected_groups with
    | none => d.groups
    | some gs =>
      if gs.isEmpty then d.groups
      else d.groups.filter (fun g => gs.contains g.name)
  ⟨rows.map (toClipboardItem d), grps, exportedAt⟩

/-- `INSERT OR IGNORE INTO item_groups SELECT ?1, id FROM groups WHERE
name = ?2`, for each name in `names`: a name with no group row inserts
nothing; an existing edge is ignored. -/
def addItemGroups (d : DB) (iid : Int) (names : List String) : DB :=
  names.foldl (fun acc n =>
    match acc.groups.find? (fun g => g.name == n) with
    | some g =>
      if acc.item_groups.contains (iid, g.id) then acc
      else { acc with item_groups := acc.item_groups ++ [(iid, g.id)] }
    | none => acc) d

/-- One iteration of the restore loop over `backup.history`: in merge mode
an item whose `raw_content` already exists reuses the first matching row's
id; otherwise a fresh row is inserted (the backup id is ignored); then the
item's group names are attached. -/
def restoreItem (d : DB) (mode : String) (it : ClipboardItem) : DB :=
  let existing : Option Int :=
    if mode == "merge" then
      (d.history.find? (fun r => r.raw_content == it.raw_content)).map (fun r => r.id)
    else none
  match existing with
  | some eid => addItemGroups d eid it.groups
  | none =>
    let nid := nextHistId d
    let d' := { d with history := d.history ++
        [⟨nid, it.content_type, it.raw_content, it.category, it.is_permanent, it.created_at⟩] }
    addItemGroups d' nid it.groups

/-- `restore_from_json` after a successful parse: in `replace` mode wipe
`history` (cascading its edges) and `groups` (cascading theirs), then
insert-or-ignore the backup's groups and run the item loop. -/
def clearForReplace (d : DB) : DB :=
  let e1 := d.item_groups.filter (fun e => !(d.history.any (fun r => r.id == e.1)))
  let e2 := e1.filter (fun e => !(d.groups.any (fun g => g.id == e.2)))
  ⟨[], [], e2⟩

def restoreBackup (d : DB) (b : BackupData) (mode : String) : DB :=
  let d0 := if mode == "replace" then clearForReplace d else d
  let d2 := b.groups.foldl (fun acc g => insertOrIgnoreGroup acc g.name g.is_system) d0
  b.history.foldl (fun acc it => restoreItem acc mode it) d2

/-! ### `get_history` and its string filter grammar -/

/-- `parts[0].replace("group:", "")` after `splitn(2, ' ')`: the bucket
name of a `group:` filter. -/
def parsedBucket (s : String) : String :=
  String.mk (removeAll "group:".data (s.data.takeWhile (fun c => !(c == ' '))))

/-- `parts[0].replace("category:", "")` after `splitn(2, ' ')`. -/
def parsedCatName (s : String) : String :=
  String.mk (removeAll "category:".data (s.data.takeWhile (fun c => !(c == ' '))))

/-- `parts[1]` of `splitn(2, ' ')`, or `""` when there is no space. -/
def parsedTerm (s : String) : String :=
  match s.data.dropWhile (fun c => !(c == ' ')) with
  | [] => ""
  | _ :: rest => String.mk rest

/-- The fixed `WHERE` clause of each virtual bucket; an unknown bucket is
`1=0`. -/
def bucketWhere (bucket : String) (r : HistoryRow) : Bool :=
  if bucket == "Dev" then
    match r.category with
    | some c => ["Docker", "Kubernetes", "IaC", "Cloud CLI", "Shell / OS", "CI / Build"].contains c
    | none => false
  else if bucket == "Code" then
    match r.category with
    | some c => ["Version Control", "Package Management", "Runtime / Build", "Database"].contains c
    | none => false
  else if bucket == "URL" then r.category == some "URL"
  else if bucket == "Images" then r.content_type == "image"
  else if bucket == "Text" then r.content_type == "text"
  else false

/-- `ORDER BY is_permanent DESC, created_at DESC`: `a` sorts no later than
`b`. -/
def histBefore (a b : HistoryRow) : Bool :=
  (b.is_permanent == false && a.is_permanent == true) ||
  (a.is_permanent == b.is_permanent && b.created_at ≤ a.created_at)

def insertSorted (a : HistoryRow) : List HistoryRow → List HistoryRow
  | [] => [a]
  | b :: bs => if histBefore a b then a :: b :: bs else b :: insertSorted a bs

def sortHist : List HistoryRow → List HistoryRow
  | [] => []
  | a :: as => insertSorted a (sortHist as)

/-- The row filter of each `get_history` branch. -/
def historyRowsFor (d : DB) (search : Option String) : List HistoryRow :=
  match search with
  | none => d.history
  | some s =>
    if strStarts s "group:" then
      d.history.filter (fun r =>
        bucketWhere (parsedBucket s) r && likeSub (parsedTerm s) r.raw_content)
    else if strStarts s "category:" then
      d.history.filter (fun r =>
        d.item_groups.any (fun e => e.1 == r.id &&
          d.groups.any (fun g => g.id == e.2 && g.name == parsedCatName s)) &&
        likeSub (parsedTerm s) r.raw_content)
    else
      d.history.filter (fun r =>
        likeSub s r.raw_content ||
        (match r.category with
         | some c => likeSub s c
         | none => false))

/-- `get_history`: filter, order, `LIMIT 100`, then populate each row's
group list by the second (batch) membership query. -/
def get_history (d : DB) (search : Option String) : List ClipboardItem :=
  ((sortHist (historyRowsFor d search)).take 100).map (toClipboardItem d)

/-! ### Schema invariants and the category-sync predicate -/

/-- The constraints SQLite enforces on the live store: primary-key
uniqueness of ids and edges, `UNIQUE` group names, and the two foreign
keys of `item_groups` (`foreign_keys = ON`). -/
def WF (d : DB) : Prop :=
  (d.groups.map (fun g => g.id)).Nodup ∧
  (d.groups.map (fun g => g.name)).Nodup ∧
  (d.history.map (fun r => r.id)).Nodup ∧
  d.item_groups.Nodup ∧
  (∀ e ∈ d.item_groups, (∃ r ∈ d.history, r.id = e.1) ∧ ∃ g ∈ d.groups, g.id = e.2)

instance (d : DB) : Decidable (WF d) := by
  unfold WF; infer_instance

/-- The legacy `category` column agrees with the membership table: an item
categorised `c` is a member of a group named `c`. -/
def CatSync (d : DB) : Prop :=
  ∀ r ∈ d.history, ∀ c, r.category = some c →
    ∃ g ∈ d.groups, g.name = c ∧ (r.id, g.id) ∈ d.item_groups

instance (d : DB) : Decidable (CatSync d) := by
  unfold CatSync; infer_instance

/-! ### General lemmas -/

lemma le_foldl_max (l : List Int) (i : Int) : i ≤ l.foldl max i := by
  induction l generalizing i with
  | nil => exact le_refl _
  | cons b bs ih => exact le_trans (le_max_left i b) (ih (max i b))

lemma mem_le_foldl_max (l : List Int) (i : Int) : ∀ x ∈ l, x ≤ l.foldl max i := by
  induction l generalizing i with
  | nil => intro x hx; cases hx
  | cons b bs ih =>
    intro x hx
    rcases List.mem_cons.mp hx with h | h
    · subst h
      exact le_trans (le_max_right i x) (le_foldl_max bs (max i x))
    · exact ih (max i b) x h

/-- The freshly assigned id is strictly greater than every existing id. -/
lemma nextIdOf_gt (ids : List Int) : ∀ x ∈ ids, x < nextIdOf ids := by
  intro x hx
  have := mem_le_foldl_max ids 0 x hx
  unfold nextIdOf
  omega

lemma nextIdOf_not_mem (ids : List Int) : nextIdOf ids ∉ ids := by
  intro h
  exact absurd rfl (ne_of_lt (nextIdOf_gt ids _ h))

/-! ### C4: retention sweep and startup purge -/

/-- **C4.** `prune_expired` keeps exactly the rows that are pinned or at
most 24 hours old, and `clear_ephemeral_on_start` keeps exactly the pinned
rows; hence neither ever removes a pinned item. -/
theorem prune_and_clear_exact (d : DB) (now : Int) (r : HistoryRow) :
    (r ∈ (prune_expired d now).history ↔
      r ∈ d.history ∧ (r.is_permanent = true ∨ ¬ r.created_at < now - retentionSecs)) ∧
    (r ∈ (clear_ephemeral_on_start d).history ↔
      r ∈ d.history ∧ r.is_permanent = true) := by
  constructor
  · simp only [prune_expired, List.mem_filter]
    constructor
    · rintro ⟨hm, hp⟩
      refine ⟨hm, ?_⟩
      cases hperm : r.is_permanent with
      | true => exact Or.inl rfl
      | false =>
        right
        intro hlt
        rw [hperm] at hp
        simp [hlt] at hp
    · rintro ⟨hm, hp⟩
      refine ⟨hm, ?_⟩
      rcases hp with hp | hp
      · simp [hp]
      · simp [hp]
  · simp only [clear_ephemeral_on_start, List.mem_filter]

/-! ### C6: classifier determinism and examples -/

/-- **C6.** The classifier is a function of the text alone (it is a pure
Lean function, so determinism and totality are definitional); the frozen
example texts classify as specified, rule order sending `kubectl get pods`
to Kubernetes rather than the later shell rule; and `hello world` matches
no rule, so on a store with no similar prior item the capture category is
`none`. -/
theorem classify_examples :
    classify "git commit -m fix" = some "Version Control" ∧
    classify "docker ps -a" = some "Docker" ∧
    classify "curl https://api.example.com" = some "Networking" ∧
    classify "kubectl get pods" = some "Kubernetes" ∧
    classify "hello world" = none ∧
    captureCategory ⟨[], [], []⟩ "hello world" = none := by
  refine ⟨?_, ?_, ?_, ?_, ?_, ?_⟩ <;> decide

/-! ### C10: silent no-ops on missing item ids -/

/-- **C10.** On an id with no history row, `delete_item` and
`toggle_permanent` both succeed (the model is total) and leave the store
untouched, unlike `add_to_group` which fails. -/
theorem delete_toggle_missing_noop (d : DB) (id : Int)
    (h : ∀ r ∈ d.history, r.id ≠ id) :
    delete_item d id = d ∧ toggle_permanent d id = d := by
  have hno : ∀ r ∈ d.history, (r.id == id) = false := by
    intro r hr
    exact beq_eq_false_iff_ne.mpr (h r hr)
  constructor
  · cases d with
    | mk gs hist edges =>
      simp only [delete_item, DB.mk.injEq, true_and]
      constructor
      · apply List.filter_eq_self.mpr
        intro r hr
        simp [hno r hr]
      · apply List.filter_eq_self.mpr
        intro e _
        have : hist.any (fun r => r.id == e.1 && r.id == id) = false := by
          apply List.any_eq_false.mpr
          intro r hr
          simp [hno r hr]
        simp [this]
  · cases d with
    | mk gs hist edges =>
      simp only [toggle_permanent, DB.mk.injEq, true_and, and_true]
      have hcong : ∀ r ∈ hist,
          (if r.id == id then { r with is_permanent := !r.is_permanent } else r) =
            (fun x => x) r := by
        intro r hr
        simp [hno r hr]
      rw [List.map_congr_left hcong]
      simp

/-- Witness for C10 at a concrete store and a missing id. -/
theorem delete_toggle_missing_noop_witness :
    (∀ r ∈ (⟨[⟨1, "G", false⟩], [⟨1, "text", "abc", some "G", true, 10⟩],
        [(1, 1)]⟩ : DB).history, r.id ≠ 7) ∧
    delete_item ⟨[⟨1, "G", false⟩], [⟨1, "text", "abc", some "G", true, 10⟩], [(1, 1)]⟩ 7 =
      ⟨[⟨1, "G", false⟩], [⟨1, "text", "abc", some "G", true, 10⟩], [(1, 1)]⟩ ∧
    toggle_permanent ⟨[⟨1, "G", false⟩], [⟨1, "text", "abc", some "G", true, 10⟩], [(1, 1)]⟩ 7 =
      ⟨[⟨1, "G", false⟩], [⟨1, "text", "abc", some "G", true, 10⟩], [(1, 1)]⟩ := by
  refine ⟨by decide, ?_⟩
  exact delete_toggle_missing_noop _ 7 (by decide)

/-! ### C9: membership-edit error handling -/

/-- **C9.** `add_to_group` on a missing item fails and (the transaction
having rolled back) leaves the store exactly as it was — no membership row,
no auto-created group; `remove_from_group` for a group the item is not a
member of, or a group that does not exist, succeeds and changes nothing. -/
theorem add_remove_group_errors (d : DB) (item_id : Int) (group_name : String) :
    ((∀ r ∈ d.history, r.id ≠ item_id) →
      add_to_group d item_id group_name = ⟨false, d⟩) ∧
    ((∀ g ∈ d.groups, g.name = group_name → (item_id, g.id) ∉ d.item_groups) →
      remove_from_group d item_id group_name = ⟨true, d⟩) := by
  constructor
  · intro h
    have hany : d.history.any (fun r => r.id == item_id) = false := by
      apply List.any_eq_false.mpr
      intro r hr
      simp [beq_eq_false_iff_ne.mpr (h r hr)]
    simp [add_to_group, hany]
  · intro h
    unfold remove_from_group
    cases hf : d.groups.find? (fun g => g.name == group_name) with
    | none => rfl
    | some g =>
      have hgname : g.name = group_name := by
        have := List.find?_some hf
        simpa using this
      have hgmem : g ∈ d.groups := List.mem_of_find?_eq_some hf
      have hnot : (item_id, g.id) ∉ d.item_groups := h g hgmem hgname
      simp only [OpResult.mk.injEq, true_and]
      cases d with
      | mk gs hist edges =>
        simp only [DB.mk.injEq, true_and, and_true]
        apply List.filter_eq_self.mpr
        intro e he
        have : e ≠ (item_id, g.id) := by
          intro heq
          exact hnot (heq ▸ he)
        rcases e with ⟨e1, e2⟩
        by_cases h1 : e1 = item_id
        · by_cases h2 : e2 = g.id
          · exact absurd (by rw [h1, h2]) this
          · simp [beq_eq_false_iff_ne.mpr h2]
        · simp [beq_eq_false_iff_ne.mpr h1]

/-- Witness for C9: missing item id 9, and removal from a group the item
is not in. -/
theorem add_remove_group_errors_witness :
    (∀ r ∈ (⟨[⟨1, "G", false⟩], [⟨1, "text", "abc", none, false, 0⟩], []⟩ : DB).history,
        r.id ≠ 9) ∧
    add_to_group ⟨[⟨1, "G", false⟩], [⟨1, "text", "abc", none, false, 0⟩], []⟩ 9 "New" =
      ⟨false, ⟨[⟨1, "G", false⟩], [⟨1, "text", "abc", none, false, 0⟩], []⟩⟩ ∧
    remove_from_group ⟨[⟨1, "G", false⟩], [⟨1, "text", "abc", none, false, 0⟩], []⟩ 1 "G" =
      ⟨true, ⟨[⟨1, "G", false⟩], [⟨1, "text", "abc", none, false, 0⟩], []⟩⟩ := by
  refine ⟨by decide, ?_, ?_⟩
  · exact (add_remove_group_errors _ 9 "New").1 (by decide)
  · exact (add_remove_group_errors _ 1 "G").2 (by decide)

/-! ### C3: category / membership synchronisation -/

lemma insertOrIgnoreGroup_history (d : DB) (n : String) (s : Bool) :
    (insertOrIgnoreGroup d n s).history = d.history := by
  unfold insertOrIgnoreGroup
  split <;> rfl

lemma insertOrIgnoreGroup_edges (d : DB) (n : String) (s : Bool) :
    (insertOrIgnoreGroup d n s).item_groups = d.item_groups := by
  unfold insertOrIgnoreGroup
  split <;> rfl

lemma insertOrIgnoreGroup_has_name (d : DB) (n : String) (s : Bool) :
    (insertOrIgnoreGroup d n s).groups.any (fun g => g.name == n) = true := by
  unfold insertOrIgnoreGroup
  split
  · assumption
  · simp [List.any_append]

/-- On an existing item, `add_to_group` succeeds, keeps `history` intact,
and ends with a group named `n` of which the item is a member. -/
lemma add_to_group_spec (d : DB) (iid : Int) (n : String)
    (h : d.history.any (fun r => r.id == iid) = true) :
    ∃ g, (add_to_group d iid n).ok = true ∧
      (add_to_group d iid n).db.history = d.history ∧
      g ∈ (add_to_group d iid n).db.groups ∧ g.name = n ∧
      (iid, g.id) ∈ (add_to_group d iid n).db.item_groups := by
  unfold add_to_group
  rw [h]
  simp only [Bool.not_true, Bool.false_eq_true, if_false]
  have hsome : ((insertOrIgnoreGroup d n false).groups.find?
      (fun g => g.name == n)).isSome = true := by
    rw [List.find?_isSome]
    have := insertOrIgnoreGroup_has_name d n false
    exact List.any_eq_true.mp this
  cases hf : (insertOrIgnoreGroup d n false).groups.find? (fun g => g.name == n) with
  | none => rw [hf] at hsome; simp at hsome
  | some g =>
    refine ⟨g, rfl, ?_, ?_, ?_, ?_⟩
    · by_cases hm : (iid, g.id) ∈ (insertOrIgnoreGroup d n false).item_groups <;>
        simp [hm, insertOrIgnoreGroup_history]
    · by_cases hm : (iid, g.id) ∈ (insertOrIgnoreGroup d n false).item_groups <;>
        · simp [hm]
          exact List.mem_of_find?_eq_some hf
    · have := List.find?_some hf
      simpa using this
    · by_cases hm : (iid, g.id) ∈ (insertOrIgnoreGroup d n false).item_groups
      · simp [hm]
      · simp [hm]

/-- **C3 (amended).** After a successful `set_category(id, c)`, the target
item carries category `c` and a membership edge to a group named `c`:
`set_category` does keep the legacy column and the membership table in
sync.  (The original claim also asserted this after `insert_item` with a
category, which the counterexample refutes.) -/
theorem set_category_establishes_sync (d : DB) (id : Int) (c : String)
    (h : ∃ r ∈ d.history, r.id = id) :
    (set_category d id c).ok = true ∧
    (∀ r ∈ (set_category d id c).db.history, r.id = id → r.category = some c) ∧
    ∃ g ∈ (set_category d id c).db.groups, g.name = c ∧
      (id, g.id) ∈ (set_category d id c).db.item_groups := by
  have hupd : ∀ r : HistoryRow, (catUpd id c r).id = r.id := by
    intro r
    unfold catUpd
    by_cases hb : (r.id == id) = true <;> simp [hb]
  have hany : (({ d with history := d.history.map (catUpd id c) } : DB)).history.any
      (fun r => r.id == id) = true := by
    obtain ⟨r, hr, hrid⟩ := h
    apply List.any_eq_true.mpr
    exact ⟨_, List.mem_map.mpr ⟨r, hr, rfl⟩, by rw [hupd r]; simp [hrid]⟩
  obtain ⟨g, hok, hhist, hgmem, hgname, hedge⟩ := add_to_group_spec _ id c hany
  cases hA : add_to_group ({ d with history := d.history.map (catUpd id c) } : DB) id c with
  | mk ok db2 =>
    rw [hA] at hok hhist hgmem hedge
    simp only at hok hhist hgmem hedge
    subst hok
    have hsc : set_category d id c = ⟨true, db2⟩ := by
      simp only [set_category]
      rw [hA]
    rw [hsc]
    refine ⟨rfl, ?_, ⟨g, hgmem, hgname, hedge⟩⟩
    intro r hr hrid
    simp only at hr
    rw [hhist] at hr
    obtain ⟨r0, hr0, hr0e⟩ := List.mem_map.mp hr
    unfold catUpd at hr0e
    by_cases hb : (r0.id == id) = true
    · rw [if_pos hb] at hr0e
      rw [← hr0e]
    · rw [if_neg hb] at hr0e
      exfalso
      have hne : r0.id ≠ id := by
        intro he
        rw [beq_iff_eq.mpr he] at hb
        exact hb rfl
      exact hne (by rw [hr0e, hrid])

/-- Witness for the amended C3 at a concrete store. -/
theorem set_category_establishes_sync_witness :
    (∃ r ∈ (⟨[], [⟨1, "text", "abc", none, false, 0⟩], []⟩ : DB).history, r.id = 1) ∧
    (set_category ⟨[], [⟨1, "text", "abc", none, false, 0⟩], []⟩ 1 "Tag").ok = true ∧
    (∀ r ∈ (set_category ⟨[], [⟨1, "text", "abc", none, false, 0⟩], []⟩ 1 "Tag").db.history,
      r.id = 1 → r.category = some "Tag") ∧
    ∃ g ∈ (set_category ⟨[], [⟨1, "text", "abc", none, false, 0⟩], []⟩ 1 "Tag").db.groups,
      g.name = "Tag" ∧
      (1, g.id) ∈ (set_category ⟨[], [⟨1, "text", "abc", none, false, 0⟩], []⟩ 1 "Tag").db.item_groups := by
  refine ⟨by decide, ?_⟩
  exact set_category_establishes_sync _ 1 "Tag" (by decide)

/-- **C3 (counterexample).** `insert_item` with a category writes only the
legacy column: right after inserting `"docker ps -a"` with category
`"Docker"` into an empty store, the category names a group the item has no
membership edge to (the group does not even exist), so the claimed
reachable-state invariant fails at this `insert_item`-reachable state. -/
theorem insert_item_breaks_sync :
    ¬ CatSync (insert_item ⟨[], [], []⟩ 0 "docker ps -a" (some "Docker")).2 := by
  decide

/-! ### C8: rename_group and its missing transaction -/

/-- **C8 (counterexample).** `rename_group` issues its two `UPDATE`s
without a transaction.  With groups `A` and `B` and one item categorised
`A`, `rename_group("A", "B")` hits the UNIQUE(name) constraint and fails —
but the already-committed history update has moved the item's category to
`B`, so the store is *not* unchanged on error. -/
theorem rename_group_not_atomic :
    (rename_group ⟨[⟨1, "A", false⟩, ⟨2, "B", false⟩],
        [⟨1, "text", "x", some "A", false, 0⟩], []⟩ "A" "B").ok = false ∧
    (rename_group ⟨[⟨1, "A", false⟩, ⟨2, "B", false⟩],
        [⟨1, "text", "x", some "A", false, 0⟩], []⟩ "A" "B").db ≠
      ⟨[⟨1, "A", false⟩, ⟨2, "B", false⟩], [⟨1, "text", "x", some "A", false, 0⟩], []⟩ := by
  decide

/-- **C8 (amended).** `rename_group` always rewrites the legacy category
values; when no second group already carries the new name, the group row is
renamed too and the call succeeds, but on a name collision the call fails
with the category rewrite already committed and the group rows untouched
(the two updates are not atomic). -/
theorem rename_group_behaviour (d : DB) (old_name new_name : String) :
    ((¬ ((∃ g ∈ d.groups, g.name = old_name) ∧ new_name ≠ old_name ∧
        ∃ g ∈ d.groups, g.name = new_name)) →
      (rename_group d old_name new_name).ok = true ∧
      (rename_group d old_name new_name).db.history =
        d.history.map (renameCat old_name new_name) ∧
      (rename_group d old_name new_name).db.groups =
        d.groups.map (renameGrp old_name new_name) ∧
      (rename_group d old_name new_name).db.item_groups = d.item_groups) ∧
    (((∃ g ∈ d.groups, g.name = old_name) ∧ new_name ≠ old_name ∧
        ∃ g ∈ d.groups, g.name = new_name) →
      (rename_group d old_name new_name).ok = false ∧
      (rename_group d old_name new_name).db.history =
        d.history.map (renameCat old_name new_name) ∧
      (rename_group d old_name new_name).db.groups = d.groups ∧
      (rename_group d old_name new_name).db.item_groups = d.item_groups) := by
  have hcond : (d.groups.any (fun g => g.name == old_name) && new_name != old_name
      && d.groups.any (fun g => g.name == new_name)) = true ↔
      ((∃ g ∈ d.groups, g.name = old_name) ∧ new_name ≠ old_name ∧
        ∃ g ∈ d.groups, g.name = new_name) := by
    simp only [Bool.and_eq_true, List.any_eq_true, beq_iff_eq, bne_iff_ne]
    tauto
  constructor
  · intro hno
    have hb : (d.groups.any (fun g => g.name == old_name) && new_name != old_name
        && d.groups.any (fun g => g.name == new_name)) = false := by
      cases hbv : (d.groups.any (fun g => g.name == old_name) && new_name != old_name
          && d.groups.any (fun g => g.name == new_name)) with
      | false => rfl
      | true => exact absurd (hcond.mp hbv) hno
    simp only [rename_group, hb, Bool.false_eq_true, if_false]
    refine ⟨?_, ?_, ?_, ?_⟩ <;> first | rfl | trivial
  · intro hyes
    have hb := hcond.mpr hyes
    simp only [rename_group, hb, if_true]
    refine ⟨?_, ?_, ?_, ?_⟩ <;> first | rfl | trivial

/-- Witness for the amended C8, exercising both the success branch and the
collision branch at concrete stores. -/
theorem rename_group_behaviour_witness :
    ((rename_group ⟨[⟨1, "A", false⟩], [⟨1, "text", "x", some "A", false, 0⟩], []⟩
        "A" "C").ok = true ∧
      (rename_group ⟨[⟨1, "A", false⟩], [⟨1, "text", "x", some "A", false, 0⟩], []⟩
        "A" "C").db.groups = [⟨1, "C", false⟩]) ∧
    ((rename_group ⟨[⟨1, "A", false⟩, ⟨2, "B", false⟩],
        [⟨1, "text", "x", some "A", false, 0⟩], []⟩ "A" "B").ok = false ∧
      (rename_group ⟨[⟨1, "A", false⟩, ⟨2, "B", false⟩],
        [⟨1, "text", "x", some "A", false, 0⟩], []⟩ "A" "B").db.groups =
        [⟨1, "A", false⟩, ⟨2, "B", false⟩]) := by
  constructor
  · have hres := (rename_group_behaviour
      ⟨[⟨1, "A", false⟩], [⟨1, "text", "x", some "A", false, 0⟩], []⟩ "A" "C").1
      (by decide)
    exact ⟨hres.1, by rw [hres.2.2.1]; decide⟩
  · have hres := (rename_group_behaviour
      ⟨[⟨1, "A", false⟩, ⟨2, "B", false⟩],
        [⟨1, "text", "x", some "A", false, 0⟩], []⟩ "A" "B").2
      (by decide)
    exact ⟨hres.1, by rw [hres.2.2.1]⟩

/-! ### C5: the 50 MiB capture ceiling -/

/-- **C5 (amended).** On any tick whose clipboard text exceeds 50 MiB the
store is untouched (the text is never inserted); and provided the text is
not whitespace-only, the tick ends with the last-seen memory equal to that
oversized text, so the identical value is not reprocessed.  (The original
claim dropped the whitespace proviso; the counterexample shows a
whitespace-only oversized text is skipped by the blank check, which runs
first, leaving the last-seen memory unchanged.) -/
theorem oversized_tick (st : CaptureState) (now : Int) (text : String)
    (hbig : utf8Len text > sizeLimit) :
    (captureTick st now text).db = st.db ∧
    (allWhitespace text = false → (captureTick st now text).last_content = text) := by
  unfold captureTick
  by_cases hc : (!(text == st.last_content) && !(allWhitespace text)) = true
  · rw [if_pos hc]
    rw [if_pos (by simpa using hbig : utf8Len text > sizeLimit)]
    exact ⟨rfl, fun _ => rfl⟩
  · rw [if_neg (by simpa using hc)]
    refine ⟨rfl, fun hws => ?_⟩
    rw [Bool.and_eq_true, Bool.not_eq_true', Bool.not_eq_true'] at hc
    push_neg at hc
    have heq : (text == st.last_content) = true := by
      cases hbv : (text == st.last_content) with
      | true => rfl
      | false => exact absurd hws (hc hbv)
    exact (beq_iff_eq.mp heq).symm

lemma listBytes_cons (c : Char) (cs : List Char) :
    listBytes (c :: cs) = charBytes c + listBytes cs := by
  simp only [listBytes]

lemma listBytes_replicate_space (n : Nat) :
    listBytes (List.replicate n ' ') = n := by
  induction n with
  | zero => rfl
  | succ k ih =>
    rw [List.replicate_succ]
    have h1 : charBytes ' ' = 1 := by decide
    simp only [listBytes, h1, ih]
    omega

/-- Witness for the amended C5: a 50 MiB + 1 byte text (`'a'` followed by
`sizeLimit` spaces) is not inserted but does update the last-seen memory. -/
theorem oversized_tick_witness :
    utf8Len (String.mk ('a' :: List.replicate sizeLimit ' ')) > sizeLimit ∧
    allWhitespace (String.mk ('a' :: List.replicate sizeLimit ' ')) = false ∧
    (captureTick ⟨"", ⟨[], [], []⟩⟩ 0
      (String.mk ('a' :: List.replicate sizeLimit ' '))).db = (⟨[], [], []⟩ : DB) ∧
    (captureTick ⟨"", ⟨[], [], []⟩⟩ 0
      (String.mk ('a' :: List.replicate sizeLimit ' '))).last_content =
      String.mk ('a' :: List.replicate sizeLimit ' ') := by
  have hlen : utf8Len (String.mk ('a' :: List.replicate sizeLimit ' ')) = sizeLimit + 1 := by
    have h1 : charBytes 'a' = 1 := by decide
    rw [utf8Len]
    rw [show (String.mk ('a' :: List.replicate sizeLimit ' ')).data
        = 'a' :: List.replicate sizeLimit ' ' from rfl]
    rw [listBytes_cons, h1, listBytes_replicate_space]
    omega
  have hbig : utf8Len (String.mk ('a' :: List.replicate sizeLimit ' ')) > sizeLimit := by
    rw [hlen]; omega
  have hws : allWhitespace (String.mk ('a' :: List.replicate sizeLimit ' ')) = false := by
    have ha : Char.isWhitespace 'a' = false := by decide
    simp only [allWhitespace, List.all_cons, ha, Bool.false_and]
  have hmain := oversized_tick ⟨"", ⟨[], [], []⟩⟩ 0
    (String.mk ('a' :: List.replicate sizeLimit ' ')) hbig
  exact ⟨hbig, hws, hmain.1, hmain.2 hws⟩

/-- **C5 (counterexample).** A text of `sizeLimit + 1` spaces exceeds
50 MiB, yet a tick seeing it leaves the last-seen memory at its previous
value (here `""`) because the whitespace-only check fires before the size
check — contradicting the claim that the memory is always updated to the
oversized text. -/
theorem oversized_whitespace_not_remembered :
    utf8Len (String.mk (List.replicate (sizeLimit + 1) ' ')) > sizeLimit ∧
    captureTick ⟨"", ⟨[], [], []⟩⟩ 0 (String.mk (List.replicate (sizeLimit + 1) ' ')) =
      ⟨"", ⟨[], [], []⟩⟩ ∧
    String.mk (List.replicate (sizeLimit + 1) ' ') ≠ "" := by
  refine ⟨?_, ?_, ?_⟩
  · show listBytes (List.replicate (sizeLimit + 1) ' ') > sizeLimit
    rw [listBytes_replicate_space]
    omega
  · have hws : allWhitespace (String.mk (List.replicate (sizeLimit + 1) ' ')) = true := by
      show ((List.replicate (sizeLimit + 1) ' ').all Char.isWhitespace) = true
      apply List.all_eq_true.mpr
      intro c hc
      rw [(List.mem_replicate.mp hc).2]
      decide
    unfold captureTick
    rw [if_neg]
    rw [hws]
    simp
  · intro he
    have : List.replicate (sizeLimit + 1) ' ' = ([] : List Char) :=
      congrArg String.data he
    rw [List.replicate_succ] at this
    exact List.cons_ne_nil _ _ this

/-! ### C7: the `group:` virtual-bucket filter -/

lemma mem_insertSorted {a x : HistoryRow} {l : List HistoryRow} :
    x ∈ insertSorted a l ↔ x = a ∨ x ∈ l := by
  induction l with
  | nil => simp [insertSorted]
  | cons b bs ih =>
    unfold insertSorted
    by_cases hb : histBefore a b = true
    · simp [hb]
    · simp only [hb, Bool.false_eq_true, if_false, List.mem_cons, ih]
      tauto

lemma mem_sortHist {x : HistoryRow} {l : List HistoryRow} : x ∈ sortHist l ↔ x ∈ l := by
  induction l with
  | nil => simp [sortHist]
  | cons a as ih =>
    simp only [sortHist, mem_insertSorted, ih, List.mem_cons]

/-- The Dev-bucket category list fixed in the `get_history` SQL. -/
def devCategories : List String :=
  ["Docker", "Kubernetes", "IaC", "Cloud CLI", "Shell / OS", "CI / Build"]

lemma bucketWhere_unknown {b : String} (r : HistoryRow)
    (h : b ∉ (["Dev", "Code", "URL", "Images", "Text"] : List String)) :
    bucketWhere b r = false := by
  simp only [List.mem_cons, List.not_mem_nil, or_false, not_or] at h
  obtain ⟨h1, h2, h3, h4, h5⟩ := h
  unfold bucketWhere
  rw [if_neg (by simpa using h1), if_neg (by simpa using h2),
    if_neg (by simpa using h3), if_neg (by simpa using h4),
    if_neg (by simpa using h5)]

/-- **C7.** With a `group:` filter, an unknown bucket name returns zero
rows (fail-closed), and the `Dev` bucket returns only items whose legacy
`category` column holds one of the six fixed Dev categories — the branch
reads only the `category` column, never the membership table. -/
theorem group_filter_buckets :
    (∀ (d : DB) (s : String), strStarts s "group:" = true →
      parsedBucket s ∉ (["Dev", "Code", "URL", "Images", "Text"] : List String) →
      get_history d (some s) = []) ∧
    (∀ (d : DB) (s : String) (it : ClipboardItem), strStarts s "group:" = true →
      parsedBucket s = "Dev" → it ∈ get_history d (some s) →
      ∃ c, it.category = some c ∧ c ∈ devCategories) := by
  constructor
  · intro d s hstart hb
    have hrows : historyRowsFor d (some s) = [] := by
      simp only [historyRowsFor]
      rw [if_pos hstart]
      apply List.filter_eq_nil_iff.mpr
      intro r _
      simp [bucketWhere_unknown r hb]
    unfold get_history
    rw [hrows]
    rfl
  · intro d s it hstart hdev hmem
    unfold get_history at hmem
    obtain ⟨r, hrmem, hre⟩ := List.mem_map.mp hmem
    have hr2 : r ∈ historyRowsFor d (some s) :=
      mem_sortHist.mp (List.mem_of_mem_take hrmem)
    simp only [historyRowsFor] at hr2
    rw [if_pos hstart] at hr2
    have hfilt := (List.mem_filter.mp hr2).2
    rw [Bool.and_eq_true] at hfilt
    have hbw := hfilt.1
    rw [hdev] at hbw
    unfold bucketWhere at hbw
    rw [if_pos (by simp)] at hbw
    cases hcat : r.category with
    | none => rw [hcat] at hbw; simp at hbw
    | some c =>
      rw [hcat] at hbw
      refine ⟨c, ?_, ?_⟩
      · rw [← hre]
        exact hcat
      · exact List.elem_iff.mp hbw

/-- Witness for C7: an unknown bucket yields no rows, and a `Dev` query on
a store holding a Docker-categorised item yields only Dev categories. -/
theorem group_filter_buckets_witness :
    (strStarts "group:Bogus x" "group:" = true ∧
      parsedBucket "group:Bogus x" ∉ (["Dev", "Code", "URL", "Images", "Text"] : List String) ∧
      get_history ⟨[], [⟨1, "text", "docker ps", some "Docker", false, 0⟩], []⟩
        (some "group:Bogus x") = []) ∧
    (strStarts "group:Dev " "group:" = true ∧
      parsedBucket "group:Dev " = "Dev" ∧
      toClipboardItem ⟨[], [⟨1, "text", "docker ps", some "Docker", false, 0⟩], []⟩
          ⟨1, "text", "docker ps", some "Docker", false, 0⟩ ∈
        get_history ⟨[], [⟨1, "text", "docker ps", some "Docker", false, 0⟩], []⟩
          (some "group:Dev ") ∧
      ∃ c, (toClipboardItem ⟨[], [⟨1, "text", "docker ps", some "Docker", false, 0⟩], []⟩
          ⟨1, "text", "docker ps", some "Docker", false, 0⟩).category = some c ∧
        c ∈ devCategories) := by
  refine ⟨⟨by decide, by decide, ?_⟩, ⟨by decide, by decide, by decide, ?_⟩⟩
  · exact group_filter_buckets.1
      ⟨[], [⟨1, "text", "docker ps", some "Docker", false, 0⟩], []⟩
      "group:Bogus x" (by decide) (by decide)
  · exact group_filter_buckets.2
      ⟨[], [⟨1, "text", "docker ps", some "Docker", false, 0⟩], []⟩
      "group:Dev "
      (toClipboardItem ⟨[], [⟨1, "text", "docker ps", some "Docker", false, 0⟩], []⟩
        ⟨1, "text", "docker ps", some "Docker", false, 0⟩)
      (by decide) (by decide) (by decide)

/-! ### C2: merge-mode restore and duplicate contents -/

lemma addItemGroups_history (names : List String) (d : DB) (iid : Int) :
    (addItemGroups d iid names).history = d.history := by
  induction names generalizing d with
  | nil => rfl
  | cons n ns ih =>
    unfold addItemGroups
    simp only [List.foldl_cons]
    cases hf : d.groups.find? (fun g => g.name == n) with
    | none =>
      have := ih d
      unfold addItemGroups at this
      simpa [hf] using this
    | some g =>
      by_cases hm : (iid, g.id) ∈ d.item_groups
      · have := ih d
        unfold addItemGroups at this
        simpa [hf, hm] using this
      · have := ih { d with item_groups := d.item_groups ++ [(iid, g.id)] }
        unfold addItemGroups at this
        simpa [hf, hm] using this

lemma addItemGroups_groups (names : List String) (d : DB) (iid : Int) :
    (addItemGroups d iid names).groups = d.groups := by
  induction names generalizing d with
  | nil => rfl
  | cons n ns ih =>
    unfold addItemGroups
    simp only [List.foldl_cons]
    cases hf : d.groups.find? (fun g => g.name == n) with
    | none =>
      have := ih d
      unfold addItemGroups at this
      simpa [hf] using this
    | some g =>
      by_cases hm : (iid, g.id) ∈ d.item_groups
      · have := ih d
        unfold addItemGroups at this
        simpa [hf, hm] using this
      · have := ih { d with item_groups := d.item_groups ++ [(iid, g.id)] }
        unfold addItemGroups at this
        simpa [hf, hm] using this

/-- Membership edges are never removed by `addItemGroups`. -/
lemma addItemGroups_edges_mono (names : List String) (d : DB) (iid : Int)
    (e : Int × Int) (he : e ∈ d.item_groups) :
    e ∈ (addItemGroups d iid names).item_groups := by
  induction names generalizing d with
  | nil => exact he
  | cons n ns ih =>
    unfold addItemGroups
    simp only [List.foldl_cons]
    cases hf : d.groups.find? (fun g => g.name == n) with
    | none =>
      have := ih d he
      unfold addItemGroups at this
      simpa [hf] using this
    | some g =>
      by_cases hm : (iid, g.id) ∈ d.item_groups
      · have := ih d he
        unfold addItemGroups at this
        simpa [hf, hm] using this
      · have := ih { d with item_groups := d.item_groups ++ [(iid, g.id)] }
          (List.mem_append_left _ he)
        unfold addItemGroups at this
        simpa [hf, hm] using this

/-- A name that resolves to a group row ends up as a membership edge. -/
lemma addItemGroups_adds (names : List String) (d : DB) (iid : Int)
    (n : String) (g : Group) (hn : n ∈ names)
    (hf : d.groups.find? (fun g => g.name == n) = some g) :
    (iid, g.id) ∈ (addItemGroups d iid names).item_groups := by
  induction names generalizing d with
  | nil => cases hn
  | cons m ms ih =>
    unfold addItemGroups
    simp only [List.foldl_cons]
    rcases List.mem_cons.mp hn with heq | htail
    · subst heq
      simp only [hf]
      by_cases hm : (iid, g.id) ∈ d.item_groups
      · have hc : d.item_groups.contains (iid, g.id) = true := List.elem_iff.mpr hm
        simp only [hc, if_true]
        have := addItemGroups_edges_mono ms d iid (iid, g.id) hm
        unfold addItemGroups at this
        exact this
      · have hc : d.item_groups.contains (iid, g.id) = false := by
          cases hcv : d.item_groups.contains (iid, g.id) with
          | false => rfl
          | true => exact absurd (List.elem_iff.mp hcv) hm
        simp only [hc, Bool.false_eq_true, if_false]
        have hmem : (iid, g.id) ∈ d.item_groups ++ [(iid, g.id)] := by simp
        have := addItemGroups_edges_mono ms
          { d with item_groups := d.item_groups ++ [(iid, g.id)] } iid (iid, g.id) hmem
        unfold addItemGroups at this
        exact this
    · cases hf2 : d.groups.find? (fun g => g.name == m) with
      | none =>
        simp only [hf2]
        have := ih d htail hf
        unfold addItemGroups at this
        exact this
      | some g2 =>
        simp only [hf2]
        by_cases hm : (iid, g2.id) ∈ d.item_groups
        · have hc : d.item_groups.contains (iid, g2.id) = true := List.elem_iff.mpr hm
          simp only [hc, if_true]
          have := ih d htail hf
          unfold addItemGroups at this
          exact this
        · have hc : d.item_groups.contains (iid, g2.id) = false := by
            cases hcv : d.item_groups.contains (iid, g2.id) with
            | false => rfl
            | true => exact absurd (List.elem_iff.mp hcv) hm
          simp only [hc, Bool.false_eq_true, if_false]
          have hf3 : ({ d with item_groups := d.item_groups ++ [(iid, g2.id)] } : DB).groups.find?
              (fun g => g.name == n) = some g := hf
          have := ih { d with item_groups := d.item_groups ++ [(iid, g2.id)] } htail hf3
          unfold addItemGroups at this
          exact this

lemma insertOrIgnoreGroup_fold_history (gs : List Group) (d : DB) :
    (gs.foldl (fun acc g => insertOrIgnoreGroup acc g.name g.is_system) d).history =
      d.history := by
  induction gs generalizing d with
  | nil => rfl
  | cons g gs ih =>
    simp only [List.foldl_cons]
    rw [ih, insertOrIgnoreGroup_history]

/-- In merge mode, an item whose content already exists inserts no row. -/
lemma restoreItem_merge_match (d : DB) (it : ClipboardItem) (r0 : HistoryRow)
    (hfind : d.history.find? (fun r => r.raw_content == it.raw_content) = some r0) :
    restoreItem d "merge" it = addItemGroups d r0.id it.groups := by
  unfold restoreItem
  simp only [hfind]
  rfl

lemma restore_fold_merge_history (items : List ClipboardItem) (d : DB)
    (h : ∀ it ∈ items, ∃ r ∈ d.history, r.raw_content = it.raw_content) :
    (items.foldl (fun acc it => restoreItem acc "merge" it) d).history = d.history := by
  induction items generalizing d with
  | nil => rfl
  | cons it items ih =>
    simp only [List.foldl_cons]
    obtain ⟨r, hrmem, hrc⟩ := h it (List.mem_cons_self _ _)
    have hfind : ∃ r0, d.history.find? (fun r => r.raw_content == it.raw_content) = some r0 := by
      have : (d.history.find? (fun r => r.raw_content == it.raw_content)).isSome = true := by
        rw [List.find?_isSome]
        exact ⟨r, hrmem, by simp [hrc]⟩
      cases hc : d.history.find? (fun r => r.raw_content == it.raw_content) with
      | none => rw [hc] at this; simp at this
      | some r0 => exact ⟨r0, rfl⟩
    obtain ⟨r0, hf0⟩ := hfind
    rw [restoreItem_merge_match d it r0 hf0]
    have hhist := addItemGroups_history it.groups d r0.id
    rw [ih (addItemGroups d r0.id it.groups) ?_, hhist]
    intro it2 hit2
    obtain ⟨r2, hr2, hrc2⟩ := h it2 (List.mem_cons_of_mem _ hit2)
    exact ⟨r2, hhist ▸ hr2, hrc2⟩

/-- **C2 (amended).** In merge mode, a backup item whose `raw_content`
already exists at its processing point inserts no new history row — in
particular a whole merge restore whose items all match existing contents
leaves `history` exactly as it was — and the first matching row's id is
reused to attach each listed group membership *that resolves to a group
row after the backup's groups were restored*; a listed name that matches
no group row (one absent from both the store and the backup's group list)
is silently skipped, which is the one deviation from the claim. -/
theorem merge_restore_no_duplicates :
    (∀ (d : DB) (b : BackupData),
      (∀ it ∈ b.history, ∃ r ∈ d.history, r.raw_content = it.raw_content) →
      (restoreBackup d b "merge").history = d.history) ∧
    (∀ (d : DB) (it : ClipboardItem) (r0 : HistoryRow),
      d.history.find? (fun r => r.raw_content == it.raw_content) = some r0 →
      (restoreItem d "merge" it).history = d.history ∧
      ∀ n ∈ it.groups, ∀ g : Group,
        d.groups.find? (fun g => g.name == n) = some g →
        (r0.id, g.id) ∈ (restoreItem d "merge" it).item_groups) := by
  constructor
  · intro d b h
    unfold restoreBackup
    simp only [show (("merge" : String) == "replace") = false by decide,
      Bool.false_eq_true, if_false]
    rw [restore_fold_merge_history]
    · exact insertOrIgnoreGroup_fold_history b.groups d
    · intro it hit
      obtain ⟨r, hr, hrc⟩ := h it hit
      exact ⟨r, (insertOrIgnoreGroup_fold_history b.groups d) ▸ hr, hrc⟩
  · intro d it r0 hfind
    rw [restoreItem_merge_match d it r0 hfind]
    refine ⟨addItemGroups_history it.groups d r0.id, ?_⟩
    intro n hn g hg
    exact addItemGroups_adds it.groups d r0.id n g hn hg

/-- Witness for the amended C2: a merge restore of one already-present
item adds no row and attaches its resolvable membership. -/
theorem merge_restore_no_duplicates_witness :
    ((∀ it ∈ (⟨[⟨5, "text", "abc", none, ["G"], false, 0⟩], [⟨7, "G", false⟩], 0⟩ :
          BackupData).history,
        ∃ r ∈ (⟨[⟨1, "G", false⟩], [⟨1, "text", "abc", none, false, 0⟩], []⟩ : DB).history,
          r.raw_content = it.raw_content) ∧
      (restoreBackup ⟨[⟨1, "G", false⟩], [⟨1, "text", "abc", none, false, 0⟩], []⟩
          ⟨[⟨5, "text", "abc", none, ["G"], false, 0⟩], [⟨7, "G", false⟩], 0⟩
          "merge").history = [⟨1, "text", "abc", none, false, 0⟩]) ∧
    ((⟨[⟨1, "G", false⟩], [⟨1, "text", "abc", none, false, 0⟩], []⟩ : DB).history.find?
        (fun r => r.raw_content == "abc") = some ⟨1, "text", "abc", none, false, 0⟩ ∧
      (restoreItem ⟨[⟨1, "G", false⟩], [⟨1, "text", "abc", none, false, 0⟩], []⟩ "merge"
          ⟨5, "text", "abc", none, ["G"], false, 0⟩).history =
        [⟨1, "text", "abc", none, false, 0⟩] ∧
      (1, 1) ∈ (restoreItem ⟨[⟨1, "G", false⟩], [⟨1, "text", "abc", none, false, 0⟩], []⟩
          "merge" ⟨5, "text", "abc", none, ["G"], false, 0⟩).item_groups) := by
  constructor
  · refine ⟨by decide, ?_⟩
    exact merge_restore_no_duplicates.1
      ⟨[⟨1, "G", false⟩], [⟨1, "text", "abc", none, false, 0⟩], []⟩
      ⟨[⟨5, "text", "abc", none, ["G"], false, 0⟩], [⟨7, "G", false⟩], 0⟩
      (by decide)
  · refine ⟨by decide, ?_, ?_⟩
    · exact (merge_restore_no_duplicates.2
        ⟨[⟨1, "G", false⟩], [⟨1, "text", "abc", none, false, 0⟩], []⟩
        ⟨5, "text", "abc", none, ["G"], false, 0⟩
        ⟨1, "text", "abc", none, false, 0⟩ (by decide)).1
    · exact (merge_restore_no_duplicates.2
        ⟨[⟨1, "G", false⟩], [⟨1, "text", "abc", none, false, 0⟩], []⟩
        ⟨5, "text", "abc", none, ["G"], false, 0⟩
        ⟨1, "text", "abc", none, false, 0⟩ (by decide)).2 "G" (by decide)
        ⟨1, "G", false⟩ (by decide)

/-- **C2 (counterexample).** A backup item lists membership in `"X"`, a
name with no group row in the store and absent from the backup's own group
list: merge restore reuses the matching item (no new row) but attaches no
membership at all, contradicting the claim that every listed membership
the item lacks is added. -/
theorem merge_restore_dangling_group_dropped :
    (restoreBackup ⟨[], [⟨1, "text", "a", none, false, 0⟩], []⟩
        ⟨[⟨5, "text", "a", none, ["X"], false, 0⟩], [], 0⟩ "merge").history =
      [⟨1, "text", "a", none, false, 0⟩] ∧
    (restoreBackup ⟨[], [⟨1, "text", "a", none, false, 0⟩], []⟩
        ⟨[⟨5, "text", "a", none, ["X"], false, 0⟩], [], 0⟩ "merge").item_groups = [] := by
  decide

/-! ### C1: export / replace-restore round trip -/

/-- With unique group ids, looking a member group up by its own id finds
exactly it. -/
lemma find?_by_id (l : List Group) (g : Group)
    (hids : (l.map (fun x => x.id)).Nodup) (hg : g ∈ l) :
    l.find? (fun x => x.id == g.id) = some g := by
  induction l with
  | nil => cases hg
  | cons a as ih =>
    rcases List.mem_cons.mp hg with heq | htail
    · subst heq
      simp [List.find?_cons]
    · have hane : a.id ≠ g.id := by
        intro hid
        rw [List.map_cons, List.nodup_cons] at hids
        exact hids.1 (hid ▸ List.mem_map.mpr ⟨g, htail, rfl⟩)
      have hfb : (a.id == g.id) = false := beq_eq_false_iff_ne.mpr hane
      rw [List.find?_cons]
      simp only [hfb]
      exact ih (by rw [List.map_cons, List.nodup_cons] at hids; exact hids.2) htail

/-- Every name produced by the membership join names an actual group row. -/
lemma viewGroups_names_exist (d : DB) (iid : Int) :
    ∀ n ∈ viewGroups d iid, ∃ g ∈ d.groups, g.name = n := by
  intro n hn
  obtain ⟨e, _, he⟩ := List.mem_filterMap.mp hn
  by_cases hid : (e.1 == iid) = true
  · rw [if_pos hid] at he
    cases hf : d.groups.find? (fun g => g.id == e.2) with
    | none => rw [hf] at he; cases he
    | some g =>
      rw [hf] at he
      exact ⟨g, List.mem_of_find?_eq_some hf, by simpa using he⟩
  · rw [if_neg hid] at he
    cases he

/-- Under the schema constraints, an item's group-name list has no
duplicates. -/
lemma viewGroups_nodup (d : DB) (iid : Int) (h : WF d) :
    (viewGroups d iid).Nodup := by
  obtain ⟨hgid, hgname, _, hedges, _⟩ := h
  apply List.Nodup.filterMap ?_ hedges
  intro e e' n hn hn'
  by_cases hid : (e.1 == iid) = true
  · rw [if_pos hid] at hn
    by_cases hid' : (e'.1 == iid) = true
    · rw [if_pos hid'] at hn'
      cases hf : d.groups.find? (fun g => g.id == e.2) with
      | none => rw [hf] at hn; cases hn
      | some g =>
        cases hf' : d.groups.find? (fun g => g.id == e'.2) with
        | none => rw [hf'] at hn'; cases hn'
        | some g' =>
          rw [hf] at hn; rw [hf'] at hn'
          have hgn : g.name = n := by simpa using hn
          have hgn' : g'.name = n := by simpa using hn'
          have hgg : g = g' := List.inj_on_of_nodup_map hgname
            (List.mem_of_find?_eq_some hf) (List.mem_of_find?_eq_some hf')
            (by rw [hgn, hgn'])
          have he2 : g.id = e.2 := by simpa using List.find?_some hf
          have he2' : g'.id = e'.2 := by simpa using List.find?_some hf'
          have h1 : e.1 = e'.1 := by
            rw [beq_iff_eq.mp hid, beq_iff_eq.mp hid']
          have h2 : e.2 = e'.2 := by rw [← he2, ← he2', hgg]
          exact Prod.ext h1 h2
    · rw [if_neg hid'] at hn'
      cases hn'
  · rw [if_neg hid] at hn
    cases hn

/-- Under the foreign keys, a replace-mode wipe empties all three tables. -/
lemma clearForReplace_of_WF (d : DB) (h : WF d) :
    clearForReplace d = (⟨[], [], []⟩ : DB) := by
  obtain ⟨_, _, _, _, hfk⟩ := h
  unfold clearForReplace
  have h1 : d.item_groups.filter
      (fun e => !(d.history.any (fun r => r.id == e.1))) = [] := by
    apply List.filter_eq_nil_iff.mpr
    intro e he
    obtain ⟨⟨r, hr, hrid⟩, _⟩ := hfk e he
    have : d.history.any (fun r => r.id == e.1) = true :=
      List.any_eq_true.mpr ⟨r, hr, by simp [hrid]⟩
    simp [this]
  rw [h1]
  rfl

/-- Inserting a list of groups with pairwise-fresh names appends them with
fresh ids, preserving the other tables. -/
lemma insertGroups_fold_spec (gs : List Group) (d : DB)
    (hnames : ((d.groups ++ gs).map (fun g => g.name)).Nodup)
    (hids : (d.groups.map (fun g => g.id)).Nodup) :
    (gs.foldl (fun acc g => insertOrIgnoreGroup acc g.name g.is_system) d).history =
      d.history ∧
    (gs.foldl (fun acc g => insertOrIgnoreGroup acc g.name g.is_system) d).item_groups =
      d.item_groups ∧
    ((gs.foldl (fun acc g => insertOrIgnoreGroup acc g.name g.is_system) d).groups.map
        (fun g => (g.name, g.is_system))) =
      ((d.groups ++ gs).map (fun g => (g.name, g.is_system))) ∧
    ((gs.foldl (fun acc g => insertOrIgnoreGroup acc g.name g.is_system) d).groups.map
        (fun g => g.id)).Nodup := by
  induction gs generalizing d with
  | nil =>
    refine ⟨rfl, rfl, ?_, hids⟩
    simp
  | cons g gs ih =>
    simp only [List.foldl_cons]
    have hnotin : g.name ∉ d.groups.map (fun x => x.name) := by
      rw [show d.groups ++ g :: gs = (d.groups ++ [g]) ++ gs by simp] at hnames
      have := (List.nodup_append.mp ((List.map_append _ _ _) ▸ hnames)).1
      rw [List.map_append] at this
      have hd := (List.nodup_append.mp this).2.2
      intro hmem
      exact hd hmem (by simp)
    have hany : d.groups.any (fun x => x.name == g.name) = false := by
      apply List.any_eq_false.mpr
      intro x hx
      intro hbeq
      exact hnotin (List.mem_map.mpr ⟨x, hx, (beq_iff_eq.mp hbeq)⟩)
    have hins : insertOrIgnoreGroup d g.name g.is_system =
        { d with groups := d.groups ++ [⟨nextGroupId d, g.name, g.is_system⟩] } := by
      unfold insertOrIgnoreGroup
      rw [hany]
      simp
    rw [hins]
    have hids' : ((d.groups ++ ([⟨nextGroupId d, g.name, g.is_system⟩] : List Group)).map
        (fun x => x.id)).Nodup := by
      rw [List.map_append]
      apply List.Nodup.append hids (by simp)
      intro a ha hb
      simp only [List.map_cons, List.map_nil, List.mem_singleton] at hb
      subst hb
      exact nextIdOf_not_mem (d.groups.map (fun x => x.id)) ha
    have hnames' : ((({ d with groups := d.groups ++
        [⟨nextGroupId d, g.name, g.is_system⟩] } : DB).groups ++ gs).map
        (fun x => x.name)).Nodup := by
      simp only [List.map_append]
      have : (d.groups ++ g :: gs).map (fun x => x.name) =
          d.groups.map (fun x => x.name) ++
            ([⟨nextGroupId d, g.name, g.is_system⟩] : List Group).map (fun x => x.name) ++
            gs.map (fun x => x.name) := by
        simp
      rw [← List.map_append, ← List.map_append]
      have heq : (d.groups ++ [(⟨nextGroupId d, g.name, g.is_system⟩ : Group)] ++ gs).map
          (fun x => x.name) = (d.groups ++ g :: gs).map (fun x => x.name) := by
        simp
      rw [heq]
      exact hnames
    obtain ⟨ha, hb, hc, hd2⟩ := ih _ hnames' hids'
    refine ⟨ha, hb, ?_, hd2⟩
    rw [hc]
    simp

lemma viewGroupsOn_append (gs : List Group) (e1 e2 : List (Int × Int)) (iid : Int) :
    viewGroupsOn gs (e1 ++ e2) iid =
      viewGroupsOn gs e1 iid ++ viewGroupsOn gs e2 iid :=
  List.filterMap_append e1 e2 _

lemma viewGroupsOn_of_ne (gs : List Group) (edges : List (Int × Int)) (iid : Int)
    (h : ∀ e ∈ edges, e.1 ≠ iid) : viewGroupsOn gs edges iid = [] := by
  apply List.filterMap_eq_nil_iff.mpr
  intro e he
  rw [if_neg (by simpa using h e he)]

/-- `addItemGroups` on an item id with no pre-existing edges: with
duplicate-free names that all resolve against a duplicate-free group
table, it appends one edge per name, and the join reads those names back
in order. -/
lemma addItemGroups_fresh (names : List String) (d : DB) (iid : Int)
    (hnd : names.Nodup)
    (hex : ∀ n ∈ names, ∃ g ∈ d.groups, g.name = n)
    (hids : (d.groups.map (fun g => g.id)).Nodup)
    (hfresh : ∀ n ∈ names, ∀ g : Group,
      d.groups.find? (fun x => x.name == n) = some g → (iid, g.id) ∉ d.item_groups) :
    (addItemGroups d iid names).groups = d.groups ∧
    (addItemGroups d iid names).history = d.history ∧
    ∃ newEdges : List (Int × Int),
      (addItemGroups d iid names).item_groups = d.item_groups ++ newEdges ∧
      (∀ e ∈ newEdges, e.1 = iid) ∧
      viewGroupsOn d.groups newEdges iid = names := by
  induction names generalizing d with
  | nil =>
    refine ⟨rfl, rfl, [], by simp [addItemGroups], by simp, rfl⟩
  | cons n ns ih =>
    obtain ⟨g0, hg0, hg0n⟩ := hex n (List.mem_cons_self _ _)
    have hsome : (d.groups.find? (fun x => x.name == n)).isSome = true := by
      rw [List.find?_isSome]
      exact ⟨g0, hg0, by simp [hg0n]⟩
    cases hf : d.groups.find? (fun x => x.name == n) with
    | none => rw [hf] at hsome; cases hsome
    | some g =>
      have hgmem : g ∈ d.groups := List.mem_of_find?_eq_some hf
      have hgname : g.name = n := by simpa using List.find?_some hf
      have hnotin : (iid, g.id) ∉ d.item_groups :=
        hfresh n (List.mem_cons_self _ _) g hf
      have hstep : addItemGroups d iid (n :: ns) =
          addItemGroups { d with item_groups := d.item_groups ++ [(iid, g.id)] } iid ns := by
        unfold addItemGroups
        simp only [List.foldl_cons, hf]
        have hc : d.item_groups.contains (iid, g.id) = false := by
          cases hcv : d.item_groups.contains (iid, g.id) with
          | false => rfl
          | true => exact absurd (List.elem_iff.mp hcv) hnotin
        simp only [hc, Bool.false_eq_true, if_false]
      rw [hstep]
      set d1 : DB := { d with item_groups := d.item_groups ++ [(iid, g.id)] } with hd1
      have hex' : ∀ m ∈ ns, ∃ g ∈ d1.groups, g.name = m := by
        intro m hm
        exact hex m (List.mem_cons_of_mem _ hm)
      have hfresh' : ∀ m ∈ ns, ∀ g' : Group,
          d1.groups.find? (fun x => x.name == m) = some g' →
          (iid, g'.id) ∉ d1.item_groups := by
        intro m hm g' hf' hmem
        rcases List.mem_append.mp hmem with hold | hnew
        · exact hfresh m (List.mem_cons_of_mem _ hm) g' hf' hold
        · have hg'id : g'.id = g.id := by
            have := List.mem_singleton.mp hnew
            exact congrArg Prod.snd this
          have hg'mem : g' ∈ d.groups := List.mem_of_find?_eq_some hf'
          have hg'name : g'.name = m := by simpa using List.find?_some hf'
          have hgg : g' = g := List.inj_on_of_nodup_map hids hg'mem hgmem hg'id
          have : m = n := by rw [← hg'name, hgg, hgname]
          rw [List.nodup_cons] at hnd
          exact hnd.1 (this ▸ hm)
      obtain ⟨ha, hb, newEdges, hc, hd2, he⟩ :=
        ih d1 (List.nodup_cons.mp hnd).2 hex' hids hfresh'
      refine ⟨ha, hb, (iid, g.id) :: newEdges, ?_, ?_, ?_⟩
      · rw [hc]
        simp [hd1]
      · intro e hee
        rcases List.mem_cons.mp hee with heq | htl
        · rw [heq]
        · exact hd2 e htl
      · have hview : viewGroupsOn d.groups ((iid, g.id) :: newEdges) iid =
            n :: viewGroupsOn d.groups newEdges iid := by
          unfold viewGroupsOn
          rw [List.filterMap_cons]
          have hbeq : (iid == iid) = true := by simp
          rw [if_pos hbeq]
          rw [find?_by_id d.groups g hids hgmem]
          simp [hgname]
        rw [hview, he]

lemma restoreItem_replace (d : DB) (it : ClipboardItem) :
    restoreItem d "replace" it =
      addItemGroups
        { d with history := d.history ++
            [⟨nextHistId d, it.content_type, it.raw_content, it.category,
              it.is_permanent, it.created_at⟩] }
        (nextHistId d) it.groups := by
  unfold restoreItem
  simp only [show (("replace" : String) == "merge") = false by decide,
    Bool.false_eq_true, if_false]

/-- Replaying a list of backup items into a store whose group table
resolves all their names appends one row per item, with fresh ids, fields
copied verbatim, and the membership join returning exactly each item's
group-name list. -/
lemma restoreItems_fold_spec (items : List ClipboardItem) (d : DB)
    (h1 : ∀ it ∈ items, it.groups.Nodup)
    (h2 : ∀ it ∈ items, ∀ n ∈ it.groups, ∃ g ∈ d.groups, g.name = n)
    (h3 : (d.groups.map (fun g => g.id)).Nodup)
    (h4 : (d.history.map (fun r => r.id)).Nodup)
    (h5 : ∀ e ∈ d.item_groups, ∃ r ∈ d.history, r.id = e.1) :
    ∃ recs : List HistoryRow,
      (items.foldl (fun acc it => restoreItem acc "replace" it) d).history =
        d.history ++ recs ∧
      (items.foldl (fun acc it => restoreItem acc "replace" it) d).groups = d.groups ∧
      List.Forall₂ (fun (r : HistoryRow) (it : ClipboardItem) =>
        r.content_type = it.content_type ∧ r.raw_content = it.raw_content ∧
        r.category = it.category ∧ r.is_permanent = it.is_permanent ∧
        r.created_at = it.created_at ∧
        viewGroups (items.foldl (fun acc it => restoreItem acc "replace" it) d) r.id =
          it.groups) recs items ∧
      (∀ r ∈ d.history,
        viewGroups (items.foldl (fun acc it => restoreItem acc "replace" it) d) r.id =
          viewGroups d r.id) ∧
      (∀ e ∈ (items.foldl (fun acc it => restoreItem acc "replace" it) d).item_groups,
        ∃ r ∈ (items.foldl (fun acc it => restoreItem acc "replace" it) d).history,
          r.id = e.1) := by
  induction items generalizing d with
  | nil =>
    exact ⟨[], by simp, rfl, List.Forall₂.nil, fun r _ => rfl, h5⟩
  | cons it its ih =>
    simp only [List.foldl_cons]
    rw [restoreItem_replace]
    set nid := nextHistId d with hnid
    set row : HistoryRow :=
      ⟨nid, it.content_type, it.raw_content, it.category,
        it.is_permanent, it.created_at⟩ with hrow
    set dRow : DB := { d with history := d.history ++ [row] } with hdRow
    have hnidfresh : nid ∉ d.history.map (fun r => r.id) := nextIdOf_not_mem _
    have hed_ne : ∀ e ∈ d.item_groups, e.1 ≠ nid := by
      intro e he hne
      obtain ⟨r, hr, hrid⟩ := h5 e he
      exact hnidfresh (hne ▸ hrid ▸ List.mem_map.mpr ⟨r, hr, rfl⟩)
    have hAG := addItemGroups_fresh it.groups dRow nid
      (h1 it (List.mem_cons_self _ _))
      (fun n hn => h2 it (List.mem_cons_self _ _) n hn)
      h3
      (by
        intro n _ g _ hmem
        exact hed_ne (nid, g.id) hmem rfl)
    obtain ⟨hAGg, hAGh, newEdges, hAGe, hAGall, hAGview⟩ := hAG
    set dMid : DB := addItemGroups dRow nid it.groups with hdMid
    have hMidHist : dMid.history = d.history ++ [row] := hAGh
    have hMidGroups : dMid.groups = d.groups := hAGg
    have hMidEdges : dMid.item_groups = d.item_groups ++ newEdges := hAGe
    have hIH := ih dMid
      (fun it2 h => h1 it2 (List.mem_cons_of_mem _ h))
      (fun it2 h n hn => by
        rw [hMidGroups]
        exact h2 it2 (List.mem_cons_of_mem _ h) n hn)
      (by rw [hMidGroups]; exact h3)
      (by
        rw [hMidHist, List.map_append]
        apply List.Nodup.append h4 (by simp)
        intro a ha hb
        simp only [List.map_cons, List.map_nil, List.mem_singleton] at hb
        subst hb
        exact hnidfresh ha)
      (by
        intro e he
        rw [hMidEdges] at he
        rcases List.mem_append.mp he with hold | hnew
        · obtain ⟨r, hr, hrid⟩ := h5 e hold
          exact ⟨r, by rw [hMidHist]; exact List.mem_append_left _ hr, hrid⟩
        · refine ⟨row, ?_, ?_⟩
          · rw [hMidHist]
            exact List.mem_append_right _ (by simp)
          · exact (hAGall e hnew).symm)
    obtain ⟨recs, hFh, hFg, hFall, hFold, hFe⟩ := hIH
    have hrowview : viewGroups dMid nid = it.groups := by
      unfold viewGroups
      rw [hMidGroups, hMidEdges, viewGroupsOn_append,
        viewGroupsOn_of_ne _ _ _ hed_ne, List.nil_append]
      exact hAGview
    refine ⟨row :: recs, ?_, ?_, ?_, ?_, hFe⟩
    · rw [hFh, hMidHist]
      simp
    · rw [hFg, hMidGroups]
    · refine List.forall₂_cons.mpr ⟨?_, hFall⟩
      refine ⟨rfl, rfl, rfl, rfl, rfl, ?_⟩
      have : row ∈ dMid.history := by
        rw [hMidHist]
        exact List.mem_append_right _ (by simp)
      rw [hFold row this]
      exact hrowview
    · intro r hr
      have hrMid : r ∈ dMid.history := by
        rw [hMidHist]
        exact List.mem_append_left _ hr
      rw [hFold r hrMid]
      have hrne : r.id ≠ nid := by
        intro he
        exact hnidfresh (he ▸ List.mem_map.mpr ⟨r, hr, rfl⟩)
      unfold viewGroups
      rw [hMidGroups, hMidEdges, viewGroupsOn_append]
      have : viewGroupsOn d.groups newEdges r.id = [] := by
        apply viewGroupsOn_of_ne
        intro e hee hne
        exact hrne (by rw [← hne, hAGall e hee])
      rw [this, List.append_nil]

/-- The id-free view of a stored item: fields plus its group-name list as
read back through the membership join. -/
def rowView (d : DB) (r : HistoryRow) :
    String × String × Option String × Bool × Int × List String :=
  (r.content_type, r.raw_content, r.category, r.is_permanent, r.created_at,
    viewGroups d r.id)

lemma forall₂_map_eq {α β γ : Type} {R : α → β → Prop} {l₁ : List α} {l₂ : List β}
    (h : List.Forall₂ R l₁ l₂) (f : α → γ) (g : β → γ)
    (hfg : ∀ a b, R a b → f a = g b) : l₁.map f = l₂.map g := by
  induction h with
  | nil => rfl
  | cons hab _ ih => simp [hfg _ _ hab, ih]

/-- **C1.** For every well-formed store, exporting the full backup (no
group selection) and restoring it in `replace` mode reproduces the store
up to ids: the list of per-item views (raw content, content type, legacy
category, pin flag, timestamp, and group-name list read through the
membership join) and the list of `(name, is_system)` group views are both
reproduced exactly. -/
theorem export_replace_roundtrip (d : DB) (eAt : Int) (h : WF d) :
    (restoreBackup d (get_all_data d none eAt) "replace").history.map
      (rowView (restoreBackup d (get_all_data d none eAt) "replace")) =
      d.history.map (rowView d) ∧
    (restoreBackup d (get_all_data d none eAt) "replace").groups.map
      (fun g => (g.name, g.is_system)) =
      d.groups.map (fun g => (g.name, g.is_system)) := by
  have hEh : (get_all_data d none eAt).history = d.history.map (toClipboardItem d) := rfl
  have hEg : (get_all_data d none eAt).groups = d.groups := rfl
  have hR : restoreBackup d (get_all_data d none eAt) "replace" =
      (get_all_data d none eAt).history.foldl (fun acc it => restoreItem acc "replace" it)
        ((get_all_data d none eAt).groups.foldl
          (fun acc g => insertOrIgnoreGroup acc g.name g.is_system) (⟨[], [], []⟩ : DB)) := by
    unfold restoreBackup
    rw [show (("replace" : String) == "replace") = true by decide]
    simp only [if_true]
    rw [clearForReplace_of_WF d h]
  rw [hR, hEh, hEg]
  obtain ⟨hgid, hgname, hhid, hedge, hfk⟩ := h
  obtain ⟨hGh, hGe, hGmap, hGids⟩ := insertGroups_fold_spec d.groups (⟨[], [], []⟩ : DB)
    (by simpa using hgname) (by simp)
  set d2 : DB := d.groups.foldl
    (fun acc g => insertOrIgnoreGroup acc g.name g.is_system) (⟨[], [], []⟩ : DB) with hd2
  have hnamemap : d2.groups.map (fun g => g.name) = d.groups.map (fun g => g.name) := by
    have := congrArg (List.map Prod.fst) hGmap
    simp only [List.map_map] at this
    simpa [Function.comp] using this
  obtain ⟨recs, hFh, hFg, hFall, hFold, hFe⟩ :=
    restoreItems_fold_spec (d.history.map (toClipboardItem d)) d2
      (by
        intro it hit
        obtain ⟨r, _, hre⟩ := List.mem_map.mp hit
        rw [← hre]
        exact viewGroups_nodup d r.id ⟨hgid, hgname, hhid, hedge, hfk⟩)
      (by
        intro it hit n hn
        obtain ⟨r, _, hre⟩ := List.mem_map.mp hit
        rw [← hre] at hn
        obtain ⟨g, hg, hgn⟩ := viewGroups_names_exist d r.id n hn
        have : n ∈ d2.groups.map (fun g => g.name) := by
          rw [hnamemap]
          exact List.mem_map.mpr ⟨g, hg, hgn⟩
        obtain ⟨g2, hg2, hg2n⟩ := List.mem_map.mp this
        exact ⟨g2, hg2, hg2n⟩)
      hGids
      (by rw [hGh]; exact List.nodup_nil)
      (by rw [hGe]; intro e he; cases he)
  constructor
  · rw [hFh, hGh, List.nil_append]
    rw [forall₂_map_eq hFall _
      (fun it => (it.content_type, it.raw_content, it.category, it.is_permanent,
        it.created_at, it.groups))
      (by
        rintro r it ⟨h1, h2, h3, h4, h5, h6⟩
        unfold rowView
        rw [h1, h2, h3, h4, h5, h6])]
    rw [List.map_map]
    rfl
  · rw [hFg, hGmap]
    simp

/-- Witness for C1 at a concrete two-item, two-group store with
memberships. -/
theorem export_replace_roundtrip_witness :
    WF ⟨[⟨1, "G", false⟩, ⟨2, "H", true⟩],
        [⟨1, "text", "aaa", some "G", false, 100⟩, ⟨2, "text", "bbb", none, true, 200⟩],
        [(1, 1), (2, 2)]⟩ ∧
    ((restoreBackup ⟨[⟨1, "G", false⟩, ⟨2, "H", true⟩],
        [⟨1, "text", "aaa", some "G", false, 100⟩, ⟨2, "text", "bbb", none, true, 200⟩],
        [(1, 1), (2, 2)]⟩
      (get_all_data ⟨[⟨1, "G", false⟩, ⟨2, "H", true⟩],
        [⟨1, "text", "aaa", some "G", false, 100⟩, ⟨2, "text", "bbb", none, true, 200⟩],
        [(1, 1), (2, 2)]⟩ none 999) "replace").history.map
      (rowView (restoreBackup ⟨[⟨1, "G", false⟩, ⟨2, "H", true⟩],
        [⟨1, "text", "aaa", some "G", false, 100⟩, ⟨2, "text", "bbb", none, true, 200⟩],
        [(1, 1), (2, 2)]⟩
      (get_all_data ⟨[⟨1, "G", false⟩, ⟨2, "H", true⟩],
        [⟨1, "text", "aaa", some "G", false, 100⟩, ⟨2, "text", "bbb", none, true, 200⟩],
        [(1, 1), (2, 2)]⟩ none 999) "replace")) =
      (⟨[⟨1, "G", false⟩, ⟨2, "H", true⟩],
        [⟨1, "text", "aaa", some "G", false, 100⟩, ⟨2, "text", "bbb", none, true, 200⟩],
        [(1, 1), (2, 2)]⟩ : DB).history.map
        (rowView ⟨[⟨1, "G", false⟩, ⟨2, "H", true⟩],
          [⟨1, "text", "aaa", some "G", false, 100⟩, ⟨2, "text", "bbb", none, true, 200⟩],
          [(1, 1), (2, 2)]⟩)) := by
  refine ⟨by decide, ?_⟩
  exact (export_replace_roundtrip
    ⟨[⟨1, "G", false⟩, ⟨2, "H", true⟩],
      [⟨1, "text", "aaa", some "G", false, 100⟩, ⟨2, "text", "bbb", none, true, 200⟩],
      [(1, 1), (2, 2)]⟩ 999 (by decide)).1

end Ortu
